import Mathlib

/-!
Shallow embedding of the OpenCL 2D wave simulation (`kernel_initial.cpp`):
the `wave_update` kernel and the host program's buffer handling and
time-stepping loop.  Device buffers of `float` are modelled as total
functions `Int → ℚ` on the kernel's `int` linear index; scalar arithmetic
is exact rational arithmetic with the same expression structure as the
source.
-/

namespace WaveSim

/-- A device buffer of floats, addressed by the kernel's `int` linear index. -/
abbrev Buf := Int → ℚ

/-- The OpenCL kernel `wave_update`, as the action of one work item
`(i, j)` (row `i` from dimension 1, column `j` from dimension 0) on the
`next` buffer.  Mirrors the kernel line by line: `idx = i * WIDTH + j`;
the bounds guard returns without touching any buffer; otherwise exactly
one of the three branches (land reflection, absorbing edge, interior
propagation) writes `next[idx]`. -/
def wave_update (current previous next elevation : Buf)
    (WIDTH HEIGHT : Int) (dt_dx2 : ℚ) (i j : Int) : Buf :=
  let idx := i * WIDTH + j
  if i < 0 ∨ HEIGHT ≤ i ∨ j < 0 ∨ WIDTH ≤ j then
    next
  else if 0 < elevation idx then
    Function.update next idx (current idx)
  else if i = 0 ∨ i = HEIGHT - 1 ∨ j = 0 ∨ j = WIDTH - 1 then
    Function.update next idx 0
  else
    Function.update next idx (2 * current idx - previous idx +
      dt_dx2 * (current (idx - WIDTH) + current (idx + WIDTH) +
                current (idx - 1) + current (idx + 1) - 4 * current idx))

/-- The value `wave_update` stores at `next[idx]` for an in-range work item
`(i, j)`: the same three-way branch as the kernel body, exposed as a pure
function of `current`, `previous` and `elevation` only. -/
def stencilValue (current previous elevation : Buf)
    (WIDTH HEIGHT : Int) (dt_dx2 : ℚ) (i j : Int) : ℚ :=
  let idx := i * WIDTH + j
  if 0 < elevation idx then current idx
  else if i = 0 ∨ i = HEIGHT - 1 ∨ j = 0 ∨ j = WIDTH - 1 then 0
  else 2 * current idx - previous idx +
      dt_dx2 * (current (idx - WIDTH) + current (idx + WIDTH) +
                current (idx - 1) + current (idx + 1) - 4 * current idx)

/-- The 2D index space of
`enqueueNDRangeKernel(kernel, NullRange, NDRange(WIDTH, HEIGHT), NullRange)`:
one work item per `(i, j)` with `0 ≤ i < HEIGHT` (global id in dimension 1)
and `0 ≤ j < WIDTH` (global id in dimension 0). -/
def cellList (WIDTH HEIGHT : Nat) : List (Nat × Nat) :=
  (List.range HEIGHT).flatMap fun i => (List.range WIDTH).map fun j => (i, j)

/-- Run the work items of `L` in the given order, each applying
`wave_update` to the running `next` buffer.  The device may schedule work
items in any order; order-independence is proved below. -/
def dispatchList (current previous elevation : Buf)
    (WIDTH HEIGHT : Int) (dt_dx2 : ℚ) : List (Nat × Nat) → Buf → Buf
  | [], next => next
  | c :: L, next =>
      dispatchList current previous elevation WIDTH HEIGHT dt_dx2 L
        (wave_update current previous next elevation WIDTH HEIGHT dt_dx2 c.1 c.2)

/-- One full kernel dispatch over the whole `WIDTH × HEIGHT` grid. -/
def dispatchAll (current previous elevation : Buf)
    (WIDTH HEIGHT : Nat) (dt_dx2 : ℚ) (next : Buf) : Buf :=
  dispatchList current previous elevation (WIDTH : Int) (HEIGHT : Int) dt_dx2
    (cellList WIDTH HEIGHT) next

/-- The three device buffers created by the host (`bufferElevation` is
constant for the run and passed separately). -/
structure DeviceState where
  bufferCurrent : Buf
  bufferPrevious : Buf
  bufferNext : Buf

/-- One iteration of the host time-stepping loop body:
`enqueueNDRangeKernel` (the kernel fills `bufferNext` from
`bufferCurrent`, `bufferPrevious` and `bufferElevation`), then
`enqueueCopyBuffer(bufferNext, bufferPrevious)`, then
`enqueueCopyBuffer(bufferCurrent, bufferNext)`.  The kernel argument
bindings are set once before the loop and never change. -/
def loopBody (elevation : Buf) (WIDTH HEIGHT : Nat) (dt_dx2 : ℚ)
    (s : DeviceState) : DeviceState :=
  let s1 : DeviceState :=
    { s with bufferNext :=
        dispatchAll s.bufferCurrent s.bufferPrevious elevation WIDTH HEIGHT dt_dx2 s.bufferNext }
  let s2 : DeviceState := { s1 with bufferPrevious := s1.bufferNext }
  let s3 : DeviceState := { s2 with bufferNext := s2.bufferCurrent }
  s3

/-- The host loop `for (int t = 0; t < TIMESTEPS; t++) { ... }`, denoted by
the number of completed iterations. -/
def timeLoop (elevation : Buf) (WIDTH HEIGHT : Nat) (dt_dx2 : ℚ) :
    Nat → DeviceState → DeviceState
  | 0, s => s
  | t + 1, s => loopBody elevation WIDTH HEIGHT dt_dx2 (timeLoop elevation WIDTH HEIGHT dt_dx2 t s)

/-- One transition of the loop viewed as a small-step machine on
`(t, device state)`: test the guard `t < TIMESTEPS`; if it holds run the
body and increment `t`, otherwise the loop has exited and nothing happens. -/
def loopIter (elevation : Buf) (WIDTH HEIGHT : Nat) (dt_dx2 : ℚ) (TIMESTEPS : Nat)
    (p : Nat × DeviceState) : Nat × DeviceState :=
  if p.1 < TIMESTEPS then (p.1 + 1, loopBody elevation WIDTH HEIGHT dt_dx2 p.2) else p

/-- The full run: seed `bufferCurrent` and `bufferPrevious` with the initial
displacement field (the host writes the same splash into both), leave
`bufferNext` holding arbitrary contents `next0` (the host creates it
without `CL_MEM_COPY_HOST_PTR`, so its initial contents are undefined),
run `T` timesteps, and read back `bufferCurrent`
(`enqueueReadBuffer(bufferCurrent, ...)`). -/
def simulate (elevation : Buf) (WIDTH HEIGHT : Nat) (dt_dx2 : ℚ) (T : Nat)
    (initField next0 : Buf) : Buf :=
  (timeLoop elevation WIDTH HEIGHT dt_dx2 T
    { bufferCurrent := initField, bufferPrevious := initField, bufferNext := next0 }).bufferCurrent

/-- Host constant `WIDTH = 512`. -/
def WIDTH : Nat := 512
/-- Host constant `HEIGHT = 512`. -/
def HEIGHT : Nat := 512
/-- Host constant `TIMESTEPS = 2500`. -/
def TIMESTEPS : Nat := 2500
/-- Host constant `WAVE_SPEED = 1.0f`. -/
def WAVE_SPEED : ℚ := 1
/-- Host constant `DT = 0.1f`. -/
def DT : ℚ := 1 / 10
/-- Host constant `DX = 1.0f`. -/
def DX : ℚ := 1
/-- Host constant `dt_dx2 = (WAVE_SPEED * WAVE_SPEED * DT * DT) / (DX * DX)`. -/
def dt_dx2 : ℚ := (WAVE_SPEED * WAVE_SPEED * DT * DT) / (DX * DX)

/-- The host's initial `current` (and `previous`) value at cell `(i, j)`:
`10` inside the splash disc `(i - HEIGHT/2)² + (j - WIDTH/2)² ≤ 4`,
`0` elsewhere (the vectors start zero-filled). -/
def initCurrentAt (i j : Int) : ℚ :=
  if (i - HEIGHT / 2) * (i - HEIGHT / 2) + (j - WIDTH / 2) * (j - WIDTH / 2) ≤ 4 then 10 else 0

/-- The host's initial `elevation` value at cell `(i, j)`: `100` inside the
land disc `(i - 400)² + (j - 400)² ≤ 50²`, `-100` elsewhere. -/
def initElevationAt (i j : Int) : ℚ :=
  if (i - 400) * (i - 400) + (j - 400) * (j - 400) ≤ 50 * 50 then 100 else -100

/-- The host's initial displacement field, flattened row-major
(`idx = i * WIDTH + j`). -/
def hostCurrent : Buf := fun a => initCurrentAt (a / (WIDTH : Int)) (a % (WIDTH : Int))

/-- The host's elevation field, flattened row-major. -/
def hostElevation : Buf := fun a => initElevationAt (a / (WIDTH : Int)) (a % (WIDTH : Int))

/-- The field read back by `main` after the loop, for an arbitrary initial
content `next0` of the uninitialized `bufferNext`. -/
def mainResult (next0 : Buf) : Buf :=
  simulate hostElevation WIDTH HEIGHT dt_dx2 TIMESTEPS hostCurrent next0

/-- The distinct linear indices of every buffer access (the reads of
`elevation`, `current` and `previous` and the write of `next`) performed by
the work item `(i, j)` of `wave_update`, following the kernel's control
flow: nothing is touched after the bounds guard fires; the land and edge
branches touch only `idx`; the interior branch additionally reads the four
neighbours `idx ± WIDTH`, `idx ± 1`. -/
def accessedIndices (elevation : Buf) (WIDTH HEIGHT : Int) (i j : Int) : List Int :=
  let idx := i * WIDTH + j
  if i < 0 ∨ HEIGHT ≤ i ∨ j < 0 ∨ WIDTH ≤ j then []
  else if 0 < elevation idx then [idx]
  else if i = 0 ∨ i = HEIGHT - 1 ∨ j = 0 ∨ j = WIDTH - 1 then [idx]
  else [idx, idx - WIDTH, idx + WIDTH, idx - 1, idx + 1]

/-- An all-water elevation field (the host default away from the land disc). -/
def waterE : Buf := fun _ => -100

/-- A 3×3 example displacement: a unit splash at the centre cell, linear
index `4`. -/
def splash3 : Buf := fun a => if a = 4 then 1 else 0

/-- A 3×3 device state seeded the way the host seeds its buffers:
`current` and `previous` hold the splash, `next` starts at `0`. -/
def state3 : DeviceState := ⟨splash3, splash3, fun _ => 0⟩

/-- The freshly computed stencil output of the first dispatch on `state3`
(grid 3×3, coefficient 1). -/
def fresh3 : Buf :=
  dispatchAll state3.bufferCurrent state3.bufferPrevious waterE 3 3 1 state3.bufferNext

/-- An all-land elevation field. -/
def landE : Buf := fun _ => 1

/-- A constant displacement field of height 5. -/
def five : Buf := fun _ => 5

/-- A 1×1 device state: `current` and `previous` hold 5 everywhere,
`next` starts at 0. -/
def state1 : DeviceState := ⟨five, five, fun _ => 0⟩

/-- An all-zero elevation field (water, since `0 ≤ 0`). -/
def zeroE : Buf := fun _ => 0

section Lemmas

variable {C P E n : Buf} {k : ℚ}

lemma wave_update_out_of_range (C P n E : Buf) (W H : Int) (k : ℚ) (i j : Int)
    (h : i < 0 ∨ H ≤ i ∨ j < 0 ∨ W ≤ j) :
    wave_update C P n E W H k i j = n := by
  simp only [wave_update, if_pos h]

lemma wave_update_in_range (C P n E : Buf) (W H : Int) (k : ℚ) (i j : Int)
    (h : ¬(i < 0 ∨ H ≤ i ∨ j < 0 ∨ W ≤ j)) :
    wave_update C P n E W H k i j =
      Function.update n (i * W + j) (stencilValue C P E W H k i j) := by
  simp only [wave_update, stencilValue, if_neg h]
  split_ifs <;> rfl

lemma wave_update_apply_ne (C P n E : Buf) (W H : Int) (k : ℚ) (i j a : Int)
    (hne : i * W + j ≠ a) :
    wave_update C P n E W H k i j a = n a := by
  by_cases h : i < 0 ∨ H ≤ i ∨ j < 0 ∨ W ≤ j
  · rw [wave_update_out_of_range C P n E W H k i j h]
  · rw [wave_update_in_range C P n E W H k i j h,
      Function.update_noteq (Ne.symm hne)]

/-- Row-major flattening is injective on in-range column indices. -/
lemma index_inj {W : Int} {i₁ j₁ i₂ j₂ : Int}
    (hj₁ : 0 ≤ j₁) (hj₁W : j₁ < W) (hj₂ : 0 ≤ j₂) (hj₂W : j₂ < W)
    (heq : i₁ * W + j₁ = i₂ * W + j₂) : i₁ = i₂ ∧ j₁ = j₂ := by
  have hW : 0 < W := lt_of_le_of_lt hj₁ hj₁W
  have hmod : ∀ i j : Int, 0 ≤ j → j < W → (i * W + j) % W = j := by
    intro i j h0 h1
    rw [add_comm, Int.add_mul_emod_self]
    exact Int.emod_eq_of_lt h0 h1
  have hj : j₁ = j₂ := by
    have := hmod i₁ j₁ hj₁ hj₁W
    rw [heq, hmod i₂ j₂ hj₂ hj₂W] at this
    omega
  refine ⟨?_, hj⟩
  have : i₁ * W = i₂ * W := by omega
  exact mul_right_cancel₀ (ne_of_gt hW) this

lemma mem_cellList {W H : Nat} {c : Nat × Nat} :
    c ∈ cellList W H ↔ c.1 < H ∧ c.2 < W := by
  cases c with
  | mk i j =>
    simp only [cellList, List.mem_flatMap, List.mem_map, List.mem_range, Prod.mk.injEq]
    constructor
    · rintro ⟨a, ha, b, hb, rfl, rfl⟩
      exact ⟨ha, hb⟩
    · rintro ⟨hi, hj⟩
      exact ⟨i, hi, j, hj, rfl, rfl⟩

lemma nodup_cellList (W H : Nat) : (cellList W H).Nodup := by
  refine List.nodup_flatMap.2 ⟨?_, ?_⟩
  · intro i _
    exact (List.nodup_range _).map fun a b h => by
      simpa using congrArg Prod.snd h
  · refine (List.pairwise_lt_range _).imp ?_
    intro a b hab
    simp only [Function.onFun, List.disjoint_left]
    rintro ⟨x, y⟩ hx hy
    simp only [List.mem_map, List.mem_range, Prod.mk.injEq] at hx hy
    obtain ⟨_, _, rfl, _⟩ := hx
    obtain ⟨_, _, h, _⟩ := hy
    omega

lemma dispatchList_apply_ne (C P E : Buf) (W H : Int) (k : ℚ)
    (L : List (Nat × Nat)) (n : Buf) (a : Int)
    (ha : ∀ c ∈ L, (c.1 : Int) * W + (c.2 : Int) ≠ a) :
    dispatchList C P E W H k L n a = n a := by
  induction L generalizing n with
  | nil => rfl
  | cons c L ih =>
    rw [dispatchList, ih _ fun d hd => ha d (List.mem_cons_of_mem _ hd)]
    exact wave_update_apply_ne C P n E W H k c.1 c.2 a (ha c (List.mem_cons_self c L))

lemma dispatchList_apply_eval (C P E : Buf) (W H : Nat) (k : ℚ)
    (L : List (Nat × Nat)) (n : Buf) (i j : Nat)
    (hL : ∀ c ∈ L, c.1 < H ∧ c.2 < W) (hnd : L.Nodup) (hmem : (i, j) ∈ L) :
    dispatchList C P E (W : Int) (H : Int) k L n ((i : Int) * (W : Int) + (j : Int)) =
      stencilValue C P E (W : Int) (H : Int) k i j := by
  induction L generalizing n with
  | nil => cases hmem
  | cons c L ih =>
    obtain ⟨hi, hj⟩ : i < H ∧ j < W := by
      rcases List.mem_cons.1 hmem with h | h
      · simpa [← h] using hL c (List.mem_cons_self c L)
      · exact hL (i, j) (List.mem_cons_of_mem _ h)
    rcases List.mem_cons.1 hmem with hc | hmemL
    · obtain ⟨ci, cj⟩ := c
      injection hc with h1 h2
      subst h1
      subst h2
      rw [dispatchList]
      dsimp only
      rw [dispatchList_apply_ne]
      · have hr : ¬((i : Int) < 0 ∨ (H : Int) ≤ (i : Int) ∨ (j : Int) < 0 ∨
            (W : Int) ≤ (j : Int)) := by
          push_neg
          exact ⟨Int.natCast_nonneg i, by exact_mod_cast hi, Int.natCast_nonneg j,
            by exact_mod_cast hj⟩
        rw [wave_update_in_range C P n E W H k i j hr, Function.update_same]
      · intro d hd heq
        have hdr : d.1 < H ∧ d.2 < W := hL d (List.mem_cons_of_mem _ hd)
        obtain ⟨h1, h2⟩ := index_inj (Int.natCast_nonneg d.2)
          (by exact_mod_cast hdr.2) (Int.natCast_nonneg j) (by exact_mod_cast hj) heq
        have hdij : d = (i, j) := by
          obtain ⟨di, dj⟩ := d
          simp only [Prod.mk.injEq]
          exact ⟨by exact_mod_cast h1, by exact_mod_cast h2⟩
        exact (List.nodup_cons.1 hnd).1 (hdij ▸ hd)
    · rw [dispatchList]
      exact ih _ (fun d hd => hL d (List.mem_cons_of_mem _ hd)) (List.nodup_cons.1 hnd).2 hmemL

/-- Value of a full grid dispatch at the cell `(i, j)` of the grid. -/
lemma dispatchAll_apply (C P E : Buf) (W H : Nat) (k : ℚ) (n : Buf) (i j : Nat)
    (hi : i < H) (hj : j < W) :
    dispatchAll C P E W H k n ((i : Int) * (W : Int) + (j : Int)) =
      stencilValue C P E (W : Int) (H : Int) k i j :=
  dispatchList_apply_eval C P E W H k (cellList W H) n i j
    (fun _ hc => mem_cellList.1 hc) (nodup_cellList W H) (mem_cellList.2 ⟨hi, hj⟩)

lemma loopBody_bufferCurrent (E : Buf) (W H : Nat) (k : ℚ) (s : DeviceState) :
    (loopBody E W H k s).bufferCurrent = s.bufferCurrent := rfl

lemma loopBody_bufferPrevious (E : Buf) (W H : Nat) (k : ℚ) (s : DeviceState) :
    (loopBody E W H k s).bufferPrevious =
      dispatchAll s.bufferCurrent s.bufferPrevious E W H k s.bufferNext := rfl

lemma loopBody_bufferNext (E : Buf) (W H : Nat) (k : ℚ) (s : DeviceState) :
    (loopBody E W H k s).bufferNext = s.bufferCurrent := rfl

lemma timeLoop_bufferCurrent (E : Buf) (W H : Nat) (k : ℚ) (t : Nat) (s : DeviceState) :
    (timeLoop E W H k t s).bufferCurrent = s.bufferCurrent := by
  induction t with
  | zero => rfl
  | succ t ih => rw [timeLoop, loopBody_bufferCurrent, ih]

lemma timeLoop_succ_bufferPrevious (E : Buf) (W H : Nat) (k : ℚ) (t : Nat) (s : DeviceState) :
    (timeLoop E W H k (t + 1) s).bufferPrevious =
      dispatchAll (timeLoop E W H k t s).bufferCurrent (timeLoop E W H k t s).bufferPrevious
        E W H k (timeLoop E W H k t s).bufferNext := rfl

/-- Two work items' updates of the `next` buffer commute: each writes only
its own cell, with a value that does not depend on `next`. -/
lemma wave_update_comm (C P E : Buf) (W H : Int) (k : ℚ) (n : Buf) (i₁ j₁ i₂ j₂ : Int) :
    wave_update C P (wave_update C P n E W H k i₁ j₁) E W H k i₂ j₂ =
      wave_update C P (wave_update C P n E W H k i₂ j₂) E W H k i₁ j₁ := by
  by_cases h₁ : i₁ < 0 ∨ H ≤ i₁ ∨ j₁ < 0 ∨ W ≤ j₁
  · rw [wave_update_out_of_range C P n E W H k i₁ j₁ h₁,
      wave_update_out_of_range C P _ E W H k i₁ j₁ h₁]
  · by_cases h₂ : i₂ < 0 ∨ H ≤ i₂ ∨ j₂ < 0 ∨ W ≤ j₂
    · rw [wave_update_out_of_range C P n E W H k i₂ j₂ h₂,
        wave_update_out_of_range C P _ E W H k i₂ j₂ h₂]
    · rw [wave_update_in_range C P n E W H k i₁ j₁ h₁,
        wave_update_in_range C P _ E W H k i₂ j₂ h₂,
        wave_update_in_range C P n E W H k i₂ j₂ h₂,
        wave_update_in_range C P _ E W H k i₁ j₁ h₁]
      by_cases heq : i₁ * W + j₁ = i₂ * W + j₂
      · push_neg at h₁ h₂
        obtain ⟨rfl, rfl⟩ := index_inj h₁.2.2.1 h₁.2.2.2 h₂.2.2.1 h₂.2.2.2 heq
        rfl
      · exact Function.update_comm heq _ _ n

/-- Dispatching a permuted work-item list produces the same `next` buffer. -/
lemma dispatchList_perm (C P E : Buf) (W H : Int) (k : ℚ)
    {L₁ L₂ : List (Nat × Nat)} (hp : L₁.Perm L₂) :
    ∀ n, dispatchList C P E W H k L₁ n = dispatchList C P E W H k L₂ n := by
  induction hp with
  | nil => intro n; rfl
  | cons x _ ih =>
    intro n
    rw [dispatchList, dispatchList, ih]
  | swap x y l =>
    intro n
    rw [dispatchList, dispatchList, dispatchList, dispatchList,
      wave_update_comm C P E W H k n y.1 y.2 x.1 x.2]
  | trans _ _ ih₁ ih₂ =>
    intro n
    rw [ih₁, ih₂]

lemma stencilValue_land (C P E : Buf) (W H : Int) (k : ℚ) (i j : Int)
    (h : 0 < E (i * W + j)) : stencilValue C P E W H k i j = C (i * W + j) := by
  simp only [stencilValue]
  rw [if_pos h]

lemma stencilValue_boundary (C P E : Buf) (W H : Int) (k : ℚ) (i j : Int)
    (h : ¬0 < E (i * W + j)) (hb : i = 0 ∨ i = H - 1 ∨ j = 0 ∨ j = W - 1) :
    stencilValue C P E W H k i j = 0 := by
  simp only [stencilValue]
  rw [if_neg h, if_pos hb]

lemma stencilValue_interior (C P E : Buf) (W H : Int) (k : ℚ) (i j : Int)
    (h : ¬0 < E (i * W + j)) (hb : ¬(i = 0 ∨ i = H - 1 ∨ j = 0 ∨ j = W - 1)) :
    stencilValue C P E W H k i j =
      2 * C (i * W + j) - P (i * W + j) +
        k * (C (i * W + j - W) + C (i * W + j + W) +
             C (i * W + j - 1) + C (i * W + j + 1) - 4 * C (i * W + j)) := by
  simp only [stencilValue]
  rw [if_neg h, if_neg hb]

/-- In-range cells flatten into the index range of the field. -/
lemma idx_bounds {W H i j : Int} (hi0 : 0 ≤ i) (hiH : i < H) (hj0 : 0 ≤ j) (hjW : j < W) :
    0 ≤ i * W + j ∧ i * W + j < W * H := by
  have hW : 0 < W := lt_of_le_of_lt hj0 hjW
  have h0 : 0 ≤ i * W := mul_nonneg hi0 (le_of_lt hW)
  have e1 : (i + 1) * W = i * W + W := by ring
  have h1 : (i + 1) * W ≤ H * W := by
    apply mul_le_mul_of_nonneg_right _ (le_of_lt hW)
    omega
  have e2 : W * H = H * W := mul_comm W H
  omega

end Lemmas

/-- Claim C1: the claim asserts a fixed 3-cycle rotation of buffer roles —
in particular that the buffer that was the scratch target becomes the
current source for the next stencil evaluation.  The code instead leaves
the kernel argument bindings fixed and copies `next → previous` and
`current → next`, so the freshly computed scratch contents never become
the current source.  Concretely, on a 3×3 all-water grid with coefficient
1 and a unit splash at the centre (index 4), the first dispatch computes
scratch value `2·1 − 1 + 1·(0+0+0+0 − 4·1) = −3` at the centre, yet after
the step the buffer read as `current` by the next dispatch still holds
`1` there: the old scratch contents did not become current. -/
theorem c1_roles_do_not_rotate :
    fresh3 4 = -3 ∧
    (loopBody waterE 3 3 1 state3).bufferCurrent 4 = 1 ∧
    (loopBody waterE 3 3 1 state3).bufferCurrent 4 ≠ fresh3 4 := by
  refine ⟨?_, ?_, ?_⟩ <;>
    norm_num [fresh3, dispatchAll, cellList, dispatchList, wave_update, loopBody,
      state3, splash3, waterE, Function.update, List.range_succ]

/-- Claim C2: every iteration of the time-stepping loop performs, after the
stencil dispatch into the scratch buffer, exactly `previous ← next`
(receiving the freshly computed contents) and then `next ← current`; the
`current` buffer is never written with freshly computed stencil output at
any point of the run (its contents are invariant across all timesteps). -/
theorem c2_per_step_buffer_update (E : Buf) (W H : Nat) (k : ℚ) (s : DeviceState) :
    loopBody E W H k s =
      { bufferCurrent := s.bufferCurrent,
        bufferPrevious := dispatchAll s.bufferCurrent s.bufferPrevious E W H k s.bufferNext,
        bufferNext := s.bufferCurrent } ∧
    ∀ t : Nat, (timeLoop E W H k t s).bufferCurrent = s.bufferCurrent :=
  ⟨rfl, fun t => timeLoop_bufferCurrent E W H k t s⟩

/-- Claim C3: for every number of timesteps `T ≥ 0` the flat row-major
field read back as the final result (the contents of `bufferCurrent`) is
cell-for-cell equal to the initial displacement field seeded at startup;
in particular the `main` run's readback is exactly its host-seeded splash
field.  No stencil output ever reaches the buffer that is read back. -/
theorem c3_readback_equals_initial (E : Buf) (W H : Nat) (k : ℚ) (T : Nat)
    (initField next0 : Buf) :
    (∀ a : Int, simulate E W H k T initField next0 a = initField a) ∧
    mainResult next0 = hostCurrent := by
  constructor
  · intro a
    unfold simulate
    rw [timeLoop_bufferCurrent]
  · funext a
    show (timeLoop hostElevation WIDTH HEIGHT dt_dx2 TIMESTEPS _).bufferCurrent a = _
    rw [timeLoop_bufferCurrent]

/-- Claim C9: the whole pipeline is deterministic — two runs with the same
width, height, timestep count, coefficient, elevation field and initial
displacement field read back identical output fields, even if the
uninitialized scratch buffer starts with different contents in the two
runs. -/
theorem c9_deterministic (E₁ E₂ : Buf) (W₁ W₂ H₁ H₂ T₁ T₂ : Nat) (k₁ k₂ : ℚ)
    (init₁ init₂ next₁ next₂ : Buf)
    (hE : E₁ = E₂) (hW : W₁ = W₂) (hH : H₁ = H₂) (hT : T₁ = T₂) (hk : k₁ = k₂)
    (hinit : init₁ = init₂) :
    simulate E₁ W₁ H₁ k₁ T₁ init₁ next₁ = simulate E₂ W₂ H₂ k₂ T₂ init₂ next₂ := by
  subst hE
  subst hW
  subst hH
  subst hT
  subst hk
  subst hinit
  funext a
  unfold simulate
  rw [timeLoop_bufferCurrent, timeLoop_bufferCurrent]

/-- Witness for C9 at a concrete input: a 3×3 all-water run of one step,
where the two runs start the uninitialized scratch buffer at different
contents and still read back the same field. -/
theorem c9_deterministic_witness :
    simulate waterE 3 3 1 1 splash3 (fun _ => 0) =
      simulate waterE 3 3 1 1 splash3 (fun _ => 7) :=
  c9_deterministic waterE waterE 3 3 3 3 1 1 1 1 splash3 splash3 (fun _ => 0) (fun _ => 7)
    rfl rfl rfl rfl rfl rfl

/-- Claim C4: for every cell `(i, j)` with `E[idx] > 0` (land), one stencil
evaluation writes `next[idx] = current[idx]`, whether or not the cell is on
the boundary (the land test comes first); consequently the freshly computed
field after any timestep equals, at every land cell, the value of the
`current` source at the previous timestep. -/
theorem c4_land_reflection (C P n E : Buf) (W H : Nat) (k : ℚ) (i j : Nat)
    (s : DeviceState) (t : Nat) (hi : i < H) (hj : j < W)
    (hland : 0 < E ((i : Int) * (W : Int) + (j : Int))) :
    wave_update C P n E (W : Int) (H : Int) k (i : Int) (j : Int)
        ((i : Int) * (W : Int) + (j : Int)) =
      C ((i : Int) * (W : Int) + (j : Int)) ∧
    (timeLoop E W H k (t + 1) s).bufferPrevious ((i : Int) * (W : Int) + (j : Int)) =
      (timeLoop E W H k t s).bufferCurrent ((i : Int) * (W : Int) + (j : Int)) := by
  have hr : ¬((i : Int) < 0 ∨ (H : Int) ≤ (i : Int) ∨ (j : Int) < 0 ∨
      (W : Int) ≤ (j : Int)) := by
    push_neg
    exact ⟨Int.natCast_nonneg i, by exact_mod_cast hi, Int.natCast_nonneg j,
      by exact_mod_cast hj⟩
  constructor
  · rw [wave_update_in_range C P n E W H k i j hr, Function.update_same,
      stencilValue_land C P E W H k i j hland]
  · rw [timeLoop_succ_bufferPrevious, dispatchAll_apply _ _ _ _ _ _ _ i j hi hj,
      stencilValue_land _ _ E W H k i j hland]

/-- Witness for C4 at a concrete input: the single cell of a 1×1 grid is
land (elevation 1 > 0) and on the boundary; the stencil reflects the
current value and the field after one timestep equals the value before. -/
theorem c4_land_reflection_witness :
    wave_update five five (fun _ => 0) landE ((1 : Nat) : Int) ((1 : Nat) : Int) 1
        ((0 : Nat) : Int) ((0 : Nat) : Int)
        (((0 : Nat) : Int) * ((1 : Nat) : Int) + ((0 : Nat) : Int)) =
      five (((0 : Nat) : Int) * ((1 : Nat) : Int) + ((0 : Nat) : Int)) ∧
    (timeLoop landE 1 1 1 (0 + 1) state1).bufferPrevious
        (((0 : Nat) : Int) * ((1 : Nat) : Int) + ((0 : Nat) : Int)) =
      (timeLoop landE 1 1 1 0 state1).bufferCurrent
        (((0 : Nat) : Int) * ((1 : Nat) : Int) + ((0 : Nat) : Int)) :=
  c4_land_reflection five five (fun _ => 0) landE 1 1 1 0 0 state1 0
    (by norm_num) (by norm_num) (by norm_num [landE])

/-- Counterexample to claim C5 as stated: the claim requires every boundary
cell to hold exactly 0 after any timestep, with no exception for land, but
the kernel tests land first.  On a 1×1 grid whose only cell `(0, 0)` lies
on the boundary (`i = 0`) and is land (elevation 1 > 0) with current value
5, the stencil writes 5, and after one timestep the freshly computed field
holds 5 ≠ 0 at that boundary cell. -/
theorem c5_boundary_counterexample :
    wave_update five five (fun _ => 0) landE 1 1 1 0 0 0 = 5 ∧
    (timeLoop landE 1 1 1 1 state1).bufferPrevious 0 ≠ 0 := by
  constructor
  · norm_num [wave_update, five, landE, Function.update]
  · norm_num [timeLoop, loopBody, dispatchAll, cellList, dispatchList, wave_update,
      state1, five, landE, Function.update, List.range_succ]

/-- Claim C5 (amended): for all boundary cells that are not land
(`E[idx] ≤ 0`), one stencil evaluation writes 0, and the freshly computed
field after any timestep is exactly 0 there — the boundary is a perfect
absorber on water cells, while land cells take the land-reflection rule
instead. -/
theorem c5_boundary_absorbs_water (C P n E : Buf) (W H : Nat) (k : ℚ) (i j : Nat)
    (s : DeviceState) (t : Nat) (hi : i < H) (hj : j < W)
    (hb : i = 0 ∨ i = H - 1 ∨ j = 0 ∨ j = W - 1)
    (hwater : E ((i : Int) * (W : Int) + (j : Int)) ≤ 0) :
    wave_update C P n E (W : Int) (H : Int) k (i : Int) (j : Int)
        ((i : Int) * (W : Int) + (j : Int)) = 0 ∧
    (timeLoop E W H k (t + 1) s).bufferPrevious ((i : Int) * (W : Int) + (j : Int)) = 0 := by
  have hr : ¬((i : Int) < 0 ∨ (H : Int) ≤ (i : Int) ∨ (j : Int) < 0 ∨
      (W : Int) ≤ (j : Int)) := by
    push_neg
    exact ⟨Int.natCast_nonneg i, by exact_mod_cast hi, Int.natCast_nonneg j,
      by exact_mod_cast hj⟩
  have hbI : (i : Int) = 0 ∨ (i : Int) = (H : Int) - 1 ∨ (j : Int) = 0 ∨
      (j : Int) = (W : Int) - 1 := by
    rcases hb with h | h | h | h
    · exact Or.inl (by exact_mod_cast h)
    · exact Or.inr (Or.inl (by omega))
    · exact Or.inr (Or.inr (Or.inl (by exact_mod_cast h)))
    · exact Or.inr (Or.inr (Or.inr (by omega)))
  have hnl : ¬0 < E ((i : Int) * (W : Int) + (j : Int)) := not_lt.2 hwater
  constructor
  · rw [wave_update_in_range C P n E W H k i j hr, Function.update_same,
      stencilValue_boundary C P E W H k i j hnl hbI]
  · rw [timeLoop_succ_bufferPrevious, dispatchAll_apply _ _ _ _ _ _ _ i j hi hj,
      stencilValue_boundary _ _ E W H k i j hnl hbI]

/-- Witness for the amended C5 at a concrete input: the single cell of a
1×1 grid is a water boundary cell (elevation 0 ≤ 0, `i = 0`); the stencil
writes 0 and the field after one timestep is 0 there. -/
theorem c5_boundary_absorbs_water_witness :
    wave_update five five (fun _ => 0) zeroE ((1 : Nat) : Int) ((1 : Nat) : Int) 1
        ((0 : Nat) : Int) ((0 : Nat) : Int)
        (((0 : Nat) : Int) * ((1 : Nat) : Int) + ((0 : Nat) : Int)) = 0 ∧
    (timeLoop zeroE 1 1 1 (0 + 1) state1).bufferPrevious
        (((0 : Nat) : Int) * ((1 : Nat) : Int) + ((0 : Nat) : Int)) = 0 :=
  c5_boundary_absorbs_water five five (fun _ => 0) zeroE 1 1 1 0 0 state1 0
    (by norm_num) (by norm_num) (Or.inl rfl) (by norm_num [zeroE])

/-- Claim C6: for every interior cell (`0 < i < H − 1`, `0 < j < W − 1`)
with `E[idx] ≤ 0`, one stencil evaluation writes
`next[idx] = 2·current[idx] − previous[idx] + k·(current[idx−W] +
current[idx+W] + current[idx−1] + current[idx+1] − 4·current[idx])`, and
the coefficient the host passes for `k` equals `(speed · dt / dx)²`. -/
theorem c6_interior_leapfrog (C P n E : Buf) (W H : Nat) (k : ℚ) (i j : Nat)
    (hi0 : 0 < i) (hiH : i + 1 < H) (hj0 : 0 < j) (hjW : j + 1 < W)
    (hwater : E ((i : Int) * (W : Int) + (j : Int)) ≤ 0) :
    wave_update C P n E (W : Int) (H : Int) k (i : Int) (j : Int)
        ((i : Int) * (W : Int) + (j : Int)) =
      2 * C ((i : Int) * (W : Int) + (j : Int)) - P ((i : Int) * (W : Int) + (j : Int)) +
        k * (C ((i : Int) * (W : Int) + (j : Int) - (W : Int)) +
             C ((i : Int) * (W : Int) + (j : Int) + (W : Int)) +
             C ((i : Int) * (W : Int) + (j : Int) - 1) +
             C ((i : Int) * (W : Int) + (j : Int) + 1) -
             4 * C ((i : Int) * (W : Int) + (j : Int))) ∧
    dt_dx2 = (WAVE_SPEED * DT / DX) ^ 2 := by
  have hr : ¬((i : Int) < 0 ∨ (H : Int) ≤ (i : Int) ∨ (j : Int) < 0 ∨
      (W : Int) ≤ (j : Int)) := by
    push_neg
    refine ⟨Int.natCast_nonneg i, by exact_mod_cast Nat.lt_of_succ_lt hiH,
      Int.natCast_nonneg j, by exact_mod_cast Nat.lt_of_succ_lt hjW⟩
  have hnb : ¬((i : Int) = 0 ∨ (i : Int) = (H : Int) - 1 ∨ (j : Int) = 0 ∨
      (j : Int) = (W : Int) - 1) := by
    push_neg
    refine ⟨by omega, by omega, by omega, by omega⟩
  have hnl : ¬0 < E ((i : Int) * (W : Int) + (j : Int)) := not_lt.2 hwater
  constructor
  · rw [wave_update_in_range C P n E W H k i j hr, Function.update_same,
      stencilValue_interior C P E W H k i j hnl hnb]
  · norm_num [dt_dx2, WAVE_SPEED, DT, DX]

/-- Witness for C6 at a concrete input: the centre cell `(1, 1)` of the
3×3 all-water grid with the unit splash. -/
theorem c6_interior_leapfrog_witness :
    wave_update splash3 splash3 (fun _ => 0) waterE ((3 : Nat) : Int) ((3 : Nat) : Int) 1
        ((1 : Nat) : Int) ((1 : Nat) : Int)
        (((1 : Nat) : Int) * ((3 : Nat) : Int) + ((1 : Nat) : Int)) =
      2 * splash3 (((1 : Nat) : Int) * ((3 : Nat) : Int) + ((1 : Nat) : Int)) -
        splash3 (((1 : Nat) : Int) * ((3 : Nat) : Int) + ((1 : Nat) : Int)) +
        1 * (splash3 (((1 : Nat) : Int) * ((3 : Nat) : Int) + ((1 : Nat) : Int) - ((3 : Nat) : Int)) +
             splash3 (((1 : Nat) : Int) * ((3 : Nat) : Int) + ((1 : Nat) : Int) + ((3 : Nat) : Int)) +
             splash3 (((1 : Nat) : Int) * ((3 : Nat) : Int) + ((1 : Nat) : Int) - 1) +
             splash3 (((1 : Nat) : Int) * ((3 : Nat) : Int) + ((1 : Nat) : Int) + 1) -
             4 * splash3 (((1 : Nat) : Int) * ((3 : Nat) : Int) + ((1 : Nat) : Int))) ∧
    dt_dx2 = (WAVE_SPEED * DT / DX) ^ 2 :=
  c6_interior_leapfrog splash3 splash3 (fun _ => 0) waterE 3 3 1 1 1
    (by norm_num) (by norm_num) (by norm_num) (by norm_num) (by norm_num [waterE])

/-- Claim C7: each in-range work item writes only its own cell `idx`, with
a value (`stencilValue`) that is a pure function of the elevation, current
and previous buffers only — it never reads the `next` buffer being filled
by the same dispatch — and consequently executing the per-cell updates in
any order (any permutation of the work-item list) produces the same next
field. -/
theorem c7_order_independence (C P E : Buf) (W H : Int) (k : ℚ) :
    (∀ (n : Buf) (i j : Int), ¬(i < 0 ∨ H ≤ i ∨ j < 0 ∨ W ≤ j) →
      wave_update C P n E W H k i j =
        Function.update n (i * W + j) (stencilValue C P E W H k i j)) ∧
    ∀ (L₁ L₂ : List (Nat × Nat)) (n : Buf), L₁.Perm L₂ →
      dispatchList C P E W H k L₁ n = dispatchList C P E W H k L₂ n :=
  ⟨fun n i j h => wave_update_in_range C P n E W H k i j h,
   fun _ _ n hp => dispatchList_perm C P E W H k hp n⟩

/-- Witness for C7 at a concrete input: dispatching the 3×3 grid's work
items in reverse order produces the same next field as the forward order. -/
theorem c7_order_independence_witness :
    dispatchList splash3 splash3 waterE 3 3 1 (cellList 3 3).reverse (fun _ => 0) =
      dispatchList splash3 splash3 waterE 3 3 1 (cellList 3 3) (fun _ => 0) :=
  (c7_order_independence splash3 splash3 waterE 3 3 1).2 (cellList 3 3).reverse
    (cellList 3 3) (fun _ => 0) (List.reverse_perm (cellList 3 3))

/-- Claim C8: the time-stepping loop executes exactly `T` timesteps and
then terminates.  Viewing the `for` loop as a small-step machine, after
`m` transitions from `(t = 0, s)` the counter is `min m T` and the state
is the `min m T`-fold application of the loop body: the counter advances
by one per step while `t < T` (no condition shortens the run), reaches
`T` after exactly `T` transitions, and every later transition leaves the
machine unchanged (no condition extends the run). -/
theorem c8_loop_runs_exactly_T (E : Buf) (W H : Nat) (k : ℚ) (T : Nat) (s : DeviceState)
    (m : Nat) :
    (loopIter E W H k T)^[m] (0, s) = (min m T, timeLoop E W H k (min m T) s) := by
  induction m with
  | zero => simp [timeLoop]
  | succ m ih =>
    rw [Function.iterate_succ_apply', ih]
    simp only [loopIter]
    rcases Nat.lt_or_ge m T with h | h
    · rw [Nat.min_eq_left (Nat.le_of_lt h), Nat.min_eq_left (Nat.succ_le_of_lt h)]
      rw [if_pos h]
      rfl
    · rw [Nat.min_eq_right h, Nat.min_eq_right (Nat.le_succ_of_le h)]
      rw [if_neg (lt_irrefl T)]

/-- Claim C10: no field access of `wave_update` ever uses an index outside
`[0, W·H)`: every index the work item `(i, j)` touches is in range for any
grid with `W ≥ 1` and `H ≥ 1`, and a work item outside `[0,H)×[0,W)`
accesses nothing and leaves the `next` buffer untouched.  The interior
branch's neighbour arithmetic `idx ± W`, `idx ± 1` only runs for
non-boundary cells, where it stays inside the field. -/
theorem c10_accesses_in_bounds (C P n E : Buf) (W H : Int) (k : ℚ) (i j : Int)
    (hW : 1 ≤ W) (hH : 1 ≤ H) :
    (∀ a ∈ accessedIndices E W H i j, 0 ≤ a ∧ a < W * H) ∧
    ((i < 0 ∨ H ≤ i ∨ j < 0 ∨ W ≤ j) →
      accessedIndices E W H i j = [] ∧ wave_update C P n E W H k i j = n) := by
  constructor
  · intro a ha
    by_cases hg : i < 0 ∨ H ≤ i ∨ j < 0 ∨ W ≤ j
    · simp [accessedIndices, if_pos hg] at ha
    · have hg' := hg
      push_neg at hg'
      obtain ⟨hi0, hiH, hj0, hjW⟩ := hg'
      simp only [accessedIndices, if_neg hg] at ha
      split_ifs at ha with hland hedge
      · rw [List.mem_singleton] at ha
        subst ha
        exact idx_bounds hi0 hiH hj0 hjW
      · rw [List.mem_singleton] at ha
        subst ha
        exact idx_bounds hi0 hiH hj0 hjW
      · push_neg at hedge
        obtain ⟨hbi0, hbiH, hbj0, hbjW⟩ := hedge
        have hup : 0 ≤ (i - 1) * W + j ∧ (i - 1) * W + j < W * H :=
          idx_bounds (by omega) (by omega) hj0 hjW
        have hdn : 0 ≤ (i + 1) * W + j ∧ (i + 1) * W + j < W * H :=
          idx_bounds (by omega) (by omega) hj0 hjW
        have hlf : 0 ≤ i * W + (j - 1) ∧ i * W + (j - 1) < W * H :=
          idx_bounds hi0 hiH (by omega) (by omega)
        have hrt : 0 ≤ i * W + (j + 1) ∧ i * W + (j + 1) < W * H :=
          idx_bounds hi0 hiH (by omega) (by omega)
        have hc : 0 ≤ i * W + j ∧ i * W + j < W * H := idx_bounds hi0 hiH hj0 hjW
        have eup : (i - 1) * W + j = i * W + j - W := by ring
        have edn : (i + 1) * W + j = i * W + j + W := by ring
        have elf : i * W + (j - 1) = i * W + j - 1 := by ring
        have ert : i * W + (j + 1) = i * W + j + 1 := by ring
        simp only [List.mem_cons, List.not_mem_nil, or_false] at ha
        rcases ha with rfl | rfl | rfl | rfl | rfl <;> omega
  · intro hg
    exact ⟨by simp [accessedIndices, if_pos hg],
      wave_update_out_of_range C P n E W H k i j hg⟩

/-- Witness for C10 at a concrete input: on the 3×3 all-water grid, the
interior work item `(1, 1)` accesses its upper neighbour at index 1, which
is inside `[0, 9)`. -/
theorem c10_accesses_in_bounds_witness : 0 ≤ (1 : Int) ∧ (1 : Int) < 3 * 3 :=
  (c10_accesses_in_bounds splash3 splash3 (fun _ => 0) waterE 3 3 1 1 1
      (by norm_num) (by norm_num)).1 1
    (by norm_num [accessedIndices, waterE, List.mem_cons])

end WaveSim
